import Mathlib

/-!
Verification development for the 3D-earth repository.

The embedding covers the two core source files:

* src/src/utils/geoDataProcessor.js — the coordinate projector
  (lonLatToCartesian), the polygon triangulation pipeline (processPolygon
  inside createProvinceMeshFromFeature), and the region mesh builder.
* src/src/components/EarthScene.vue — the region collection assembler
  (createProvincesFromGeoJson) and the pointer interaction controller
  (onMouseDown / onMouseMove / onMouseUp inside initRaycaster).

The source computes with JavaScript doubles.  Longitudes and latitudes
are embedded over an arbitrary linearly ordered commutative ring K (the
general theorems hold for K = ℚ and K = ℝ, which contain every double;
concrete evaluations use K = ℤ).  The spherical projection is embedded
over the reals, since the spec states the projection invariant "exactly
over the reals".  The mesh-building pipeline is parametric in the
projection function (the source passes the projected 3D point through
untouched) and in the triangulation function, because the earcut library
is an external dependency whose source is not part of this repository; a
concrete ear-clipping triangulator modelled from the spec is provided
below as earcutSpec.
-/

namespace Earth3D

/-- Embedded JavaScript values as they occur in feature property bags
and mesh userData objects. -/
inductive JsVal where
  | undef : JsVal
  | bool (b : Bool) : JsVal
  | num (q : ℚ) : JsVal
  | str (s : String) : JsVal
deriving DecidableEq

/-- A JavaScript object used as a property bag: an association list from
string keys to values.  Lookup takes the first matching entry, so entries
closer to the head override later ones. -/
abbrev PropBag := List (String × JsVal)

/-- Object.assign target src: fields of src override fields of the
target.  With first-match lookup semantics this is src prepended to the
target. -/
def objAssign (target src : PropBag) : PropBag := src ++ target

/-- A geographic point: (longitude, latitude) in degrees, as in a
GeoJSON coordinate pair. -/
abbrev Pt (K : Type) := K × K

variable {K : Type} [LinearOrderedCommRing K]

/-- A GeoJSON geometry as dispatched on by createProvinceMeshFromFeature.
The constructor records the geometry.type tag together with coordinates of
the shape that tag promises (the external-interface contract of the spec);
the unsupported constructor carries the type string of any other geometry
(for example "Point") whose coordinates the source never reads. -/
inductive Geometry (K : Type) where
  | polygon (rings : List (List (Pt K))) : Geometry K
  | multiPolygon (polys : List (List (List (Pt K)))) : Geometry K
  | unsupported (typeName : String) : Geometry K
deriving DecidableEq

/-- A GeoJSON feature.  The geometry and properties fields are Options:
none embeds a missing (undefined) field, whose member access throws in
JavaScript. -/
structure Feature (K : Type) where
  geometry : Option (Geometry K)
  properties : Option PropBag
deriving DecidableEq

/-- The single JavaScript error condition the embedded code can raise:
a TypeError from accessing a member of undefined (absent geometry in
createProvinceMeshFromFeature, absent properties in the destructuring of
createProvincesFromGeoJson). -/
inductive JsErr where
  | typeError : JsErr
deriving DecidableEq

/-- Decidable equality of embedded results, for evaluating the pipeline
on concrete inputs. -/
instance {ε α : Type} [DecidableEq ε] [DecidableEq α] : DecidableEq (Except ε α) := fun x y =>
  match x, y with
  | .error a, .error b =>
    if h : a = b then isTrue (by rw [h]) else isFalse (by intro hc; cases hc; exact h rfl)
  | .ok a, .ok b =>
    if h : a = b then isTrue (by rw [h]) else isFalse (by intro hc; cases hc; exact h rfl)
  | .error _, .ok _ => isFalse (by intro hc; cases hc)
  | .ok _, .error _ => isFalse (by intro hc; cases hc)

/-- The material state of a THREE.MeshPhongMaterial that the source reads
or writes: fill color, emissive (self-illumination) color, opacity,
transparency flag and shininess. -/
structure Material where
  color : ℕ
  emissive : ℕ
  opacity : ℚ
  transparent : Bool
  shininess : ℕ
deriving DecidableEq

/-- The materialOptions bag passed to createProvinceMeshFromFeature;
an absent field keeps the default of defaultMat. -/
structure MaterialOptions where
  color : Option ℕ := none
  opacity : Option ℚ := none
  transparent : Option Bool := none
  shininess : Option ℕ := none
deriving DecidableEq

/-- Object.assign(defaultMat, materialOptions) from the source: defaults
color 0xff5533, transparent, opacity 0.85, shininess 10, overridden by
any field present in the options.  A phong material starts with black
emissive. -/
def mkMaterial (mo : MaterialOptions) : Material :=
  { color := mo.color.getD 0xff5533
    emissive := 0
    opacity := mo.opacity.getD (85/100)
    transparent := mo.transparent.getD true
    shininess := mo.shininess.getD 10 }

/-! ## The ear-clipping triangulator

Modelled from the spec: the earcut library is an external dependency, so
its behaviour is modelled from the spec's words — a standard 2D
ear-clipping triangulation over the flattened lon/lat coordinate array,
returning a flat list of integer index triples into the point array, and
normalising the winding of the input ring (real earcut triangulates both
orientations).  Hole bridging is not modelled: a call with a nonempty
hole-index list yields no triangles here; every claim below exercises
only hole-free rings. -/

/-- Twice the signed area of the triangle o a b; positive when the turn
o → a → b is counter-clockwise. -/
def cross (o a b : Pt K) : K :=
  (a.1 - o.1) * (b.2 - o.2) - (a.2 - o.2) * (b.1 - o.1)

/-- Point p lies inside (or on the border of) the counter-clockwise
triangle a b c. -/
def inTriangle (a b c p : Pt K) : Bool :=
  decide (0 ≤ cross a b p) && decide (0 ≤ cross b c p) && decide (0 ≤ cross c a p)

/-- Vertex lookup with a junk default, mirroring unchecked JavaScript
array indexing. -/
def vtx (pts : List (Pt K)) (i : ℕ) : Pt K := pts.getD i (0, 0)

/-- The ear test at position p of the remaining index cycle idx: the
corner at p is convex and no other remaining vertex lies in the candidate
ear triangle. -/
def isEar (pts : List (Pt K)) (idx : List ℕ) (p : ℕ) : Bool :=
  decide (0 < cross (vtx pts (idx.getD ((p + idx.length - 1) % idx.length) 0))
      (vtx pts (idx.getD p 0)) (vtx pts (idx.getD ((p + 1) % idx.length) 0))) &&
    (List.range idx.length).all fun j =>
      j == (p + idx.length - 1) % idx.length || j == p || j == (p + 1) % idx.length ||
        !(inTriangle (vtx pts (idx.getD ((p + idx.length - 1) % idx.length) 0))
            (vtx pts (idx.getD p 0)) (vtx pts (idx.getD ((p + 1) % idx.length) 0))
            (vtx pts (idx.getD j 0)))

/-- First position of the remaining cycle that is an ear, if any. -/
def findEar (pts : List (Pt K)) (idx : List ℕ) : Option ℕ :=
  (List.range idx.length).find? (isEar pts idx)

/-- Iteratively clip ears from the index cycle, emitting one index triple
per clipped ear; fuel bounds the number of iterations. -/
def earClipAux (pts : List (Pt K)) : ℕ → List ℕ → List ℕ
  | 0, _ => []
  | Nat.succ fuel, idx =>
    if idx.length < 3 then []
    else if idx.length == 3 then [idx.getD 0 0, idx.getD 1 0, idx.getD 2 0]
    else
      match findEar pts idx with
      | none => []
      | some p =>
          idx.getD ((p + idx.length - 1) % idx.length) 0 :: idx.getD p 0 ::
            idx.getD ((p + 1) % idx.length) 0 :: earClipAux pts fuel (idx.eraseIdx p)

/-- Ear-clipping triangulation of a counter-clockwise simple polygon given
as its vertex list. -/
def earClip (pts : List (Pt K)) : List ℕ :=
  earClipAux pts pts.length (List.range pts.length)

/-- Regroup the flattened coordinate array [x0, y0, x1, y1, ...] into
points, dropping a dangling half pair. -/
def toPairs : List K → List (Pt K)
  | x :: y :: rest => (x, y) :: toPairs rest
  | _ => []

/-- Shoelace accumulator: edge terms from p along the rest of the ring,
closing back to the first vertex p0. -/
def shoelaceAux (p0 : Pt K) : Pt K → List (Pt K) → K
  | p, [] => p.1 * p0.2 - p0.1 * p.2
  | p, q :: rest => (p.1 * q.2 - q.1 * p.2) + shoelaceAux p0 q rest

/-- Twice the signed area of a closed ring (shoelace formula); positive
for counter-clockwise winding. -/
def signedArea2 : List (Pt K) → K
  | [] => 0
  | p :: rest => shoelaceAux p p rest

/-- Modelled from the spec: the earcut entry point.  Takes the flattened
2D coordinate array and the hole start indices, and returns a flat list
of index triples into the point array.  A clockwise outer ring is
triangulated in reversed order and the emitted indices are mapped back,
as real earcut accepts either winding.  Hole bridging is not modelled
(nonempty hole list: no triangles); the claims exercise hole-free rings
only. -/
def earcutSpec (flat2D : List K) (holeIdx : List ℕ) : List ℕ :=
  if holeIdx.isEmpty then
    if signedArea2 (toPairs flat2D) < 0 then
      (earClip (toPairs flat2D).reverse).map (fun i => (toPairs flat2D).length - 1 - i)
    else earClip (toPairs flat2D)
  else []

/-! ## The mesh-building pipeline (geoDataProcessor.js)

The pipeline is parametric in the projection proj : lon → lat → V.  The
source computes lonLatToCartesian(lon, lat, radius + elevation) inside
processPolygon; proj is that closure, with V the type of one projected
3D vertex.  It is also parametric in the triangulator ec, which stands
for the imported earcut function. -/

/-- Flattened 2D lon/lat array of all rings of one polygon, in traversal
order (the flat2D array of processPolygon). -/
def ringFlat2D (rings : List (List (Pt K))) : List K :=
  rings.flatMap fun r => r.flatMap fun c => [c.1, c.2]

/-- Hole start indices: for every ring after the first, the number of
points pushed before that ring (the holeIndices array of
processPolygon). -/
def holeIdxAux (acc : ℕ) : List (List (Pt K)) → List ℕ
  | [] => []
  | r :: rest =>
    match rest with
    | [] => []
    | _ :: _ => (acc + r.length) :: holeIdxAux (acc + r.length) rest

/-- Hole start indices of a polygon's ring list. -/
def holeIndices (rings : List (List (Pt K))) : List ℕ := holeIdxAux 0 rings

/-- Projected 3D vertices of all rings of one polygon, in the same
traversal order as ringFlat2D (the per-coordinate pushes into
geom3DVertices). -/
def ringVerts {V : Type} (proj : K → K → V) (rings : List (List (Pt K))) : List V :=
  rings.flatMap fun r => r.map fun c => proj c.1 c.2

/-- Regroup a flat index list into triples (the i, i+1, i+2 strides of
the emission loop), dropping a dangling partial triple. -/
def chunk3 : List ℕ → List (ℕ × ℕ × ℕ)
  | a :: b :: c :: rest => (a, b, c) :: chunk3 rest
  | _ => []

/-- One call of the processPolygon helper.  The accumulator carries the
feature-level geom3DVertices list (first component) and the feature-level
geomPositions output (second component), both of which the source shares
across all polygons of one feature; the triangulation indices are looked
up in the accumulated vertex list exactly as the source does. -/
def processPolygon {V : Type} (proj : K → K → V) (ec : List K → List ℕ → List ℕ)
    (acc : List V × List V) (rings : List (List (Pt K))) : List V × List V :=
  let flat2D := ringFlat2D rings
  let holes := holeIndices rings
  let geom3D := acc.1 ++ ringVerts proj rings
  let tris := ec flat2D holes
  let emitted := (chunk3 tris).flatMap fun t =>
    [geom3D.getD t.1 (proj 0 0), geom3D.getD t.2.1 (proj 0 0), geom3D.getD t.2.2 (proj 0 0)]
  (geom3D, acc.2 ++ emitted)

/-- The triangle vertex list a feature's geometry contributes: one
processPolygon call for a Polygon, a fold over the member polygons for a
MultiPolygon (sharing the accumulator, as the source closure does), and
nothing for an unsupported geometry type (after the logged warning). -/
def featureVerts {V : Type} (proj : K → K → V) (ec : List K → List ℕ → List ℕ) :
    Geometry K → List V
  | .polygon rings => (processPolygon proj ec ([], []) rings).2
  | .multiPolygon polys => (polys.foldl (processPolygon proj ec) ([], [])).2
  | .unsupported _ => []

/-- Flatten a vertex list into the raw coordinate buffer (3 numbers per
vertex), matching the spread pushes into geomPositions. -/
def flat3 {α : Type} (vs : List (α × α × α)) : List α :=
  vs.flatMap fun v => [v.1, v.2.1, v.2.2]

/-- A built region mesh: its triangle vertex list, its material, and its
userData property bag. -/
structure Mesh (V : Type) where
  verts : List V
  material : Material
  userData : PropBag
deriving DecidableEq

/-- The region mesh builder createProvinceMeshFromFeature.  Accessing
feature.geometry.type throws when geometry is absent; otherwise the
geometry is triangulated, an empty output buffer yields no mesh (ok
none), and a built mesh carries the material from the options and a
userData bag of the feature properties with isProvince forced true on
top. -/
def createProvinceMeshFromFeature {V : Type} (proj : K → K → V)
    (ec : List K → List ℕ → List ℕ) (mo : MaterialOptions) (f : Feature K) :
    Except JsErr (Option (Mesh V)) :=
  match f.geometry with
  | none => .error .typeError
  | some g =>
    let verts := featureVerts proj ec g
    if verts.isEmpty then .ok none
    else
      .ok (some
        { verts := verts
          material := mkMaterial mo
          userData := objAssign (objAssign [] (f.properties.getD [])) [("isProvince", .bool true)] })

/-! ## The region collection assembler (createProvincesFromGeoJson) -/

/-- The hard-coded 15-color province palette of
createProvincesFromGeoJson. -/
def provinceColors : List ℕ :=
  [0xff6b6b, 0x4ecdc4, 0x45b7d1, 0x96ceb4, 0xfeca57, 0xff9ff3, 0x54a0ff,
   0x5f27cd, 0x00d2d3, 0xff9f43, 0x10ac84, 0xee5a24, 0xa3cb38, 0xc44569, 0xd980fa]

/-- The materialOptions the assembler passes for the feature at the given
collection index: palette color at index mod palette size, transparent,
opacity 0.7, shininess 30. -/
def provinceOpts (i : ℕ) : MaterialOptions :=
  { color := some (provinceColors.getD (i % provinceColors.length) 0)
    opacity := some (7/10)
    transparent := some true
    shininess := some 30 }

/-- The userData override the assembler applies to a surviving mesh:
provinceName and adcode drawn from the feature properties and isProvince
forced true. -/
def provinceMeta (props : PropBag) : PropBag :=
  [("provinceName", (props.lookup "name").getD .undef),
   ("adcode", (props.lookup "adcode").getD .undef),
   ("isProvince", .bool true)]

/-- Apply the assembler's userData override on top of the mesh's existing
userData. -/
def withProvinceMeta {V : Type} (props : PropBag) (m : Mesh V) : Mesh V :=
  { m with userData := objAssign m.userData (provinceMeta props) }

/-- The assembler loop over the remaining features, carrying the running
collection index.  Destructuring feature.properties throws when the field
is absent; a thrown error anywhere stops the whole forEach (the source
has no per-feature catch). -/
def assembleAux {V : Type} (proj : K → K → V) (ec : List K → List ℕ → List ℕ) :
    ℕ → List (Feature K) → Except JsErr (List (Mesh V))
  | _, [] => .ok []
  | i, f :: rest =>
    match f.properties with
    | none => .error .typeError
    | some props =>
      match createProvinceMeshFromFeature proj ec (provinceOpts i) f with
      | .error e => .error e
      | .ok none => assembleAux proj ec (i + 1) rest
      | .ok (some m) =>
        match assembleAux proj ec (i + 1) rest with
        | .error e => .error e
        | .ok ms => .ok (withProvinceMeta props m :: ms)

/-- The region collection assembler createProvincesFromGeoJson: the group
of surviving meshes in collection order, or the first thrown error. -/
def createProvincesFromGeoJson {V : Type} (proj : K → K → V)
    (ec : List K → List ℕ → List ℕ) (fs : List (Feature K)) :
    Except JsErr (List (Mesh V)) :=
  assembleAux proj ec 0 fs

/-- The per-feature outcome of the assembler at a given collection index,
when no error is thrown: the decorated mesh, or none when the feature is
skipped. -/
def assembleMeshAt {V : Type} (proj : K → K → V) (ec : List K → List ℕ → List ℕ)
    (i : ℕ) (f : Feature K) : Option (Mesh V) :=
  match f.properties with
  | none => none
  | some props =>
    match createProvinceMeshFromFeature proj ec (provinceOpts i) f with
    | .ok (some m) => some (withProvinceMeta props m)
    | _ => none

/-- The error-free closed form of the assembler loop: features in
collection order, each mapped through assembleMeshAt at its index,
skipping the ones that yield no mesh. -/
def assembledList {V : Type} (proj : K → K → V) (ec : List K → List ℕ → List ℕ) :
    ℕ → List (Feature K) → List (Mesh V)
  | _, [] => []
  | i, f :: rest =>
    match assembleMeshAt proj ec i f with
    | some m => m :: assembledList proj ec (i + 1) rest
    | none => assembledList proj ec (i + 1) rest

/-! ## The coordinate projector (lonLatToCartesian), over the reals -/

/-- The spherical projection lonLatToCartesian of geoDataProcessor.js,
read over the reals (the source computes with IEEE doubles; the spec's
projection invariant is stated exactly over the reals). -/
noncomputable def lonLatToCartesian (lon lat radius : ℝ) : ℝ × ℝ × ℝ :=
  let phi := (90 - lat) * (Real.pi / 180)
  let theta := (lon + 180) * (Real.pi / 180)
  (-(Real.sin phi * Real.cos theta) * radius,
   Real.cos phi * radius,
   Real.sin phi * Real.sin theta * radius)

/-- Euclidean distance of a 3D point from the origin. -/
noncomputable def norm3 (v : ℝ × ℝ × ℝ) : ℝ :=
  Real.sqrt (v.1 ^ 2 + v.2.1 ^ 2 + v.2.2 ^ 2)

/-! ## The pointer interaction controller (initRaycaster in
EarthScene.vue)

Meshes and material objects are identified by natural-number object
identities; the mutable heap of material objects is the matStore field
and nextMat is the next fresh material identity, so that cloning a
material allocates a new object and reference equality is identity
equality — mirroring the JavaScript object graph.  A pointer-move or
pointer-up event carries the ordered intersection list its ray cast
returns (nearest first), as the controller consumes it. -/

/-- The fixed scene data the controller reads from mesh userData: which
mesh identities are pickable provinces, and each mesh's province name. -/
structure SceneData where
  isProv : ℕ → Bool
  provName : ℕ → String

/-- The mutable state of the initRaycaster closure: every mesh's current
material reference, the material heap, the allocation counter, the
hovered province, the saved-original-material map, and the click
discrimination state. -/
structure PointerState where
  matOf : ℕ → ℕ
  matStore : ℕ → Material
  nextMat : ℕ
  hovered : Option ℕ
  saved : List (ℕ × ℕ)
  mouseDownTime : ℤ
  downX : ℚ
  downY : ℚ
  isDragging : Bool

/-- Map.set on the saved-material map: replace the entry if the key is
present, otherwise add one. -/
def mapSet (m : List (ℕ × ℕ)) (k v : ℕ) : List (ℕ × ℕ) :=
  if (m.lookup k).isSome then m.map (fun kv => if kv.1 == k then (k, v) else kv)
  else (k, v) :: m

/-- Map.delete on the saved-material map. -/
def mapDelete (m : List (ℕ × ℕ)) (k : ℕ) : List (ℕ × ℕ) :=
  m.filter fun kv => !(kv.1 == k)

/-- The nearest pickable hit: the first object of the intersection list
whose userData marks it a province. -/
def currentTarget (cfg : SceneData) (hits : List ℕ) : Option ℕ :=
  hits.find? cfg.isProv

/-- Restore step of the move handler: if a province is hovered and the
map holds its original material, install that exact material reference
back on the mesh and delete the map entry. -/
def restoreHovered (st : PointerState) : PointerState :=
  match st.hovered with
  | none => st
  | some r =>
    match st.saved.lookup r with
    | none => st
    | some sid =>
      { st with
        matOf := fun m => if m = r then sid else st.matOf m
        saved := mapDelete st.saved r }

/-- Highlight step of the move handler: save the incoming province's
current material reference, clone it into a fresh material object with
the emissive tint 0x444444 and opacity 0.9, and install the clone. -/
def highlightNew (st : PointerState) (c : ℕ) : PointerState :=
  let old := st.matOf c
  let hl : Material := { st.matStore old with emissive := 0x444444, opacity := 9/10 }
  { st with
    saved := mapSet st.saved c old
    matStore := fun i => if i = st.nextMat then hl else st.matStore i
    matOf := fun m => if m = c then st.nextMat else st.matOf m
    nextMat := st.nextMat + 1 }

/-- Drag marking at the start of the move handler: any movement while a
pointer-down is pending sets the drag flag. -/
def dragMark (st : PointerState) : PointerState :=
  if 0 < st.mouseDownTime then { st with isDragging := true } else st

/-- The onMouseMove handler: mark dragging if a pointer-down is pending,
ray-cast for the nearest pickable hit, and on a hover change restore the
outgoing province before highlighting the incoming one. -/
def onMouseMove (cfg : SceneData) (st : PointerState) (hits : List ℕ) : PointerState :=
  let st0 := dragMark st
  let cur := currentTarget cfg hits
  if cur = st0.hovered then st0
  else
    let st1 := restoreHovered st0
    let st2 :=
      match cur with
      | some c => highlightNew st1 c
      | none => st1
    { st2 with hovered := cur }

/-- The onMouseDown handler: clear the drag flag and record the event
time and screen position. -/
def onMouseDown (st : PointerState) (now : ℤ) (x y : ℚ) : PointerState :=
  { st with isDragging := false, mouseDownTime := now, downX := x, downY := y }

/-- The onMouseUp handler.  The source compares the Euclidean move
distance (a square root) against 5; that comparison is embedded squared
as distance squared against 25, which is equivalent for nonnegative
lengths.  A valid click re-casts at the up position and the name of the
nearest pickable hit is emitted (the router navigation); pointer-up
always clears the pending-down time and the drag flag. -/
def onMouseUp (cfg : SceneData) (st : PointerState) (now : ℤ) (x y : ℚ)
    (hits : List ℕ) : PointerState × Option String :=
  let clickDuration := now - st.mouseDownTime
  let moveDistSq := (x - st.downX) ^ 2 + (y - st.downY) ^ 2
  let emitted :=
    if clickDuration < 200 ∧ moveDistSq < 25 ∧ st.isDragging = false then
      (currentTarget cfg hits).map cfg.provName
    else none
  ({ st with mouseDownTime := 0, isDragging := false }, emitted)

/-- The state of the initRaycaster closure right after installation:
nothing hovered, the saved-material map empty, no pending pointer-down,
not dragging; the mesh material references and the material heap are
whatever scene setup produced. -/
def initPointer (matOf0 : ℕ → ℕ) (matStore0 : ℕ → Material) (next0 : ℕ) : PointerState :=
  { matOf := matOf0
    matStore := matStore0
    nextMat := next0
    hovered := none
    saved := []
    mouseDownTime := 0
    downX := 0
    downY := 0
    isDragging := false }

/-! ## Concrete inputs used by witnesses and counterexamples -/

/-- Tagging projection over the integers: each projected vertex records
the lon/lat it came from, making vertex provenance decidable. -/
def projT : ℤ → ℤ → ℤ × ℤ := fun a b => (a, b)

/-- Tagging projection into coordinate triples. -/
def projT3 : ℤ → ℤ → ℤ × ℤ × ℤ := fun a b => (a, b, 0)

/-- A counter-clockwise triangle ring near the origin. -/
def tri1 : List (Pt ℤ) := [(0, 0), (1, 0), (0, 1)]

/-- A counter-clockwise triangle ring far from the origin. -/
def tri2 : List (Pt ℤ) := [(10, 10), (11, 10), (10, 11)]

/-- A counter-clockwise unit square ring. -/
def square : List (Pt ℤ) := [(0, 0), (1, 0), (1, 1), (0, 1)]

/-- A feature with absent geometry: member access on it throws. -/
def badFeature : Feature ℤ := ⟨none, some []⟩

/-- A well-formed triangle Polygon feature. -/
def goodFeature : Feature ℤ :=
  ⟨some (.polygon [tri1]), some [("name", .str "A"), ("adcode", .num 110000)]⟩

/-- A Point feature: unsupported geometry type. -/
def pointFeature : Feature ℤ := ⟨some (.unsupported "Point"), some []⟩

/-- A triangle feature whose properties try to disable pickability. -/
def sneakyFeature : Feature ℤ :=
  ⟨some (.polygon [tri1]), some [("isProvince", .bool false)]⟩

/-- The mesh the builder produces for the feature whose properties set
isProvince to false. -/
def sneakyMesh : Mesh (ℤ × ℤ) :=
  { verts := [(0, 0), (1, 0), (0, 1)]
    material := mkMaterial {}
    userData := [("isProvince", .bool true), ("isProvince", .bool false)] }

/-- Strong hover invariant: the saved-material map is the singleton for
the hovered province, or empty when nothing is hovered. -/
def SavedInv (st : PointerState) : Prop :=
  match st.hovered with
  | none => st.saved = []
  | some r => ∃ v, st.saved = [(r, v)]

/-- A concrete scene for the pointer witnesses: mesh 1 is the pickable
region named Beijing. -/
def oneProvScene : SceneData :=
  { isProv := fun i => i == 1
    provName := fun _ => "Beijing" }

/-- A concrete controller state right after a pointer-down at (100, 100)
at time 0. -/
def downState : PointerState :=
  onMouseDown (initPointer (fun _ => 0) (fun _ => mkMaterial {}) 1) 0 100 100

/-- A concrete controller state with province 2 hovered and its original
material 5 saved, materials 0 through 9 allocated. -/
def c10state : PointerState :=
  { matOf := fun m => m
    matStore := fun _ => mkMaterial {}
    nextMat := 10
    hovered := some 2
    saved := [(2, 5)]
    mouseDownTime := 0
    downX := 0
    downY := 0
    isDragging := false }

/-- A value produced by the projection closure at some longitude and
latitude. -/
def IsProjVal {K V : Type} (proj : K → K → V) (v : V) : Prop :=
  ∃ lon lat, v = proj lon lat

/-- Strictly convex position, counter-clockwise: every ordered index
triple makes a strict left turn. -/
def ConvexCCW (pts : List (Pt K)) : Prop :=
  ∀ r, r < pts.length → ∀ q, q < r → ∀ p, p < q →
    0 < cross (vtx pts p) (vtx pts q) (vtx pts r)

/-- Strictly convex position, clockwise: every ordered index triple
makes a strict right turn. -/
def ConvexCW (pts : List (Pt K)) : Prop :=
  ∀ r, r < pts.length → ∀ q, q < r → ∀ p, p < q →
    cross (vtx pts p) (vtx pts q) (vtx pts r) < 0

/-- Strictly convex position of the remaining index cycle of the
clipper: every ordered position triple is a strict left turn. -/
def ConvexIdx (pts : List (Pt K)) (idx : List ℕ) : Prop :=
  ∀ r, r < idx.length → ∀ q, q < r → ∀ p, p < q →
    0 < cross (vtx pts (idx.getD p 0)) (vtx pts (idx.getD q 0)) (vtx pts (idx.getD r 0))

/-- Convexity of a concrete ring is decidable (bounded index
quantifiers over a decidable turn test). -/
instance (pts : List (Pt K)) : Decidable (ConvexCCW pts) :=
  inferInstanceAs (Decidable (∀ r, r < pts.length → ∀ q, q < r → ∀ p, p < q →
    0 < cross (vtx pts p) (vtx pts q) (vtx pts r)))

/-- Clockwise convexity of a concrete ring is decidable. -/
instance (pts : List (Pt K)) : Decidable (ConvexCW pts) :=
  inferInstanceAs (Decidable (∀ r, r < pts.length → ∀ q, q < r → ∀ p, p < q →
    cross (vtx pts p) (vtx pts q) (vtx pts r) < 0))

/-- Fan decomposition of the shoelace sum: signed areas of the triangles
from a fixed apex over consecutive ring edges. -/
def fanSum (p0 : Pt K) : List (Pt K) → K
  | a :: b :: rest => cross p0 a b + fanSum p0 (b :: rest)
  | _ => 0

/-! ## Helper lemmas about the mesh builder -/

/-- A feature whose geometry is present never throws in the builder. -/
theorem builder_ok {V : Type} (proj : K → K → V) (ec : List K → List ℕ → List ℕ)
    (mo : MaterialOptions) (f : Feature K) (g : Geometry K) (hg : f.geometry = some g) :
    createProvinceMeshFromFeature proj ec mo f =
      .ok (if (featureVerts proj ec g).isEmpty then none
           else some
             { verts := featureVerts proj ec g
               material := mkMaterial mo
               userData := objAssign (objAssign [] (f.properties.getD []))
                 [("isProvince", .bool true)] }) := by
  unfold createProvinceMeshFromFeature
  rw [hg]
  by_cases h : (featureVerts proj ec g).isEmpty <;> simp [h]

/-- A built mesh carries the material built from the options. -/
theorem builder_material {V : Type} (proj : K → K → V) (ec : List K → List ℕ → List ℕ)
    (mo : MaterialOptions) (f : Feature K) (m : Mesh V)
    (hm : createProvinceMeshFromFeature proj ec mo f = .ok (some m)) :
    m.material = mkMaterial mo := by
  unfold createProvinceMeshFromFeature at hm
  cases hg : f.geometry with
  | none => rw [hg] at hm; exact absurd hm (by simp)
  | some g =>
    rw [hg] at hm
    by_cases h : (featureVerts proj ec g).isEmpty <;> simp [h] at hm
    subst hm
    rfl

/-- A built mesh's userData answers isProvince with true. -/
theorem builder_isProvince {V : Type} (proj : K → K → V) (ec : List K → List ℕ → List ℕ)
    (mo : MaterialOptions) (f : Feature K) (m : Mesh V)
    (hm : createProvinceMeshFromFeature proj ec mo f = .ok (some m)) :
    m.userData.lookup "isProvince" = some (.bool true) := by
  unfold createProvinceMeshFromFeature at hm
  cases hg : f.geometry with
  | none => rw [hg] at hm; exact absurd hm (by simp)
  | some g =>
    rw [hg] at hm
    by_cases h : (featureVerts proj ec g).isEmpty <;> simp [h] at hm
    subst hm
    simp [objAssign, List.lookup]

/-- The assembler's userData override answers isProvince with true
whatever the mesh's previous userData held. -/
theorem withProvinceMeta_isProvince {V : Type} (props : PropBag) (m : Mesh V) :
    (withProvinceMeta props m).userData.lookup "isProvince" = some (.bool true) := by
  simp [withProvinceMeta, objAssign, provinceMeta, List.lookup]

/-- Every mesh the assembler loop outputs answers isProvince with
true. -/
theorem assembleAux_isProvince {V : Type} (proj : K → K → V)
    (ec : List K → List ℕ → List ℕ) :
    ∀ (fs : List (Feature K)) (i : ℕ) (ms : List (Mesh V)),
      assembleAux proj ec i fs = .ok ms →
      ∀ m ∈ ms, m.userData.lookup "isProvince" = some (.bool true) := by
  intro fs
  induction fs with
  | nil => intro i ms h m hm; simp [assembleAux] at h; subst h; cases hm
  | cons f rest ih =>
    intro i ms h m hm
    unfold assembleAux at h
    cases hp : f.properties with
    | none => rw [hp] at h; exact absurd h (by simp)
    | some props =>
      rw [hp] at h
      cases hb : createProvinceMeshFromFeature proj ec (provinceOpts i) f with
      | error e => rw [hb] at h; exact absurd h (by simp)
      | ok r =>
        rw [hb] at h
        cases r with
        | none => exact ih (i + 1) ms h m hm
        | some m0 =>
          cases hrest : assembleAux proj ec (i + 1) rest with
          | error e => rw [hrest] at h; exact absurd h (by simp)
          | ok ms0 =>
            rw [hrest] at h
            simp only [Except.ok.injEq] at h
            subst h
            rcases List.mem_cons.mp hm with hm | hm
            · exact hm ▸ withProvinceMeta_isProvince props m0
            · exact ih (i + 1) ms0 hrest m hm

/-- Claim C4: the mesh builder never throws on a feature whose geometry
object is present; it returns no mesh exactly when the produced triangle
buffer is empty (in particular after the warning for an unsupported
geometry type), and a returned mesh always has a nonempty vertex
buffer. -/
theorem c4_null_iff_empty_buffer {V : Type} (proj : K → K → V)
    (ec : List K → List ℕ → List ℕ) (mo : MaterialOptions) (f : Feature K)
    (g : Geometry K) (hg : f.geometry = some g) :
    ∃ r, createProvinceMeshFromFeature proj ec mo f = .ok r ∧
      (r = none ↔ featureVerts proj ec g = []) ∧
      (∀ m, r = some m → m.verts ≠ []) ∧
      (∀ t, g = .unsupported t → r = none) := by
  refine ⟨_, builder_ok proj ec mo f g hg, ?_, ?_, ?_⟩
  · by_cases h : (featureVerts proj ec g).isEmpty
    · simp [h, List.isEmpty_iff.mp h]
    · simp only [h, Bool.false_eq_true, if_false]
      constructor
      · intro hc; cases hc
      · intro hc; exact absurd (by simp [hc] : (featureVerts proj ec g).isEmpty) h
  · intro m hm
    by_cases h : (featureVerts proj ec g).isEmpty
    · simp [h] at hm
    · simp only [h, Bool.false_eq_true, if_false, Option.some.injEq] at hm
      subst hm
      simpa [List.isEmpty_iff] using h
  · intro t ht
    subst ht
    simp [featureVerts]

/-- Witness for C4 at the Point feature of the spec's skip-rule
scenario. -/
theorem c4_null_iff_empty_buffer_witness :
    ∃ r, createProvinceMeshFromFeature projT earcutSpec {} pointFeature = .ok r ∧
      (r = none ↔ featureVerts projT earcutSpec (.unsupported "Point") = []) ∧
      (∀ m, r = some m → m.verts ≠ []) ∧
      (∀ t, (Geometry.unsupported "Point" : Geometry ℤ) = .unsupported t → r = none) :=
  c4_null_iff_empty_buffer projT earcutSpec {} pointFeature (.unsupported "Point") rfl

/-- Claim C6: a built mesh is always pickable — the builder merges the
feature properties first and forces isProvince true on top, and the
assembler forces it again on every surviving mesh, so feature properties
can never disable pickability. -/
theorem c6_pickability_forced :
    (∀ (K V : Type) (_inst : LinearOrderedCommRing K) (proj : K → K → V)
        (ec : List K → List ℕ → List ℕ)
        (mo : MaterialOptions) (f : Feature K) (m : Mesh V),
        createProvinceMeshFromFeature proj ec mo f = .ok (some m) →
        m.userData.lookup "isProvince" = some (.bool true)) ∧
    (∀ (K V : Type) (_inst : LinearOrderedCommRing K) (proj : K → K → V)
        (ec : List K → List ℕ → List ℕ)
        (fs : List (Feature K)) (ms : List (Mesh V)) (m : Mesh V),
        createProvincesFromGeoJson proj ec fs = .ok ms → m ∈ ms →
        m.userData.lookup "isProvince" = some (.bool true)) := by
  constructor
  · intro K V _inst proj ec mo f m hm
    exact builder_isProvince proj ec mo f m hm
  · intro K V _inst proj ec fs ms m h hm
    exact assembleAux_isProvince proj ec fs 0 ms h m hm



/-- Witness for C6: even a feature whose properties carry
isProvince = false yields a mesh whose userData answers isProvince with
true. -/
theorem c6_pickability_forced_witness :
    createProvinceMeshFromFeature projT earcutSpec {} sneakyFeature = .ok (some sneakyMesh) ∧
      sneakyMesh.userData.lookup "isProvince" = some (.bool true) :=
  ⟨by rfl,
   c6_pickability_forced.1 ℤ (ℤ × ℤ) inferInstance projT earcutSpec {} sneakyFeature sneakyMesh
     (by rfl)⟩

/-! ## The hover highlight invariant (C2, C10) -/



/-- The isDragging marking leaves the hovered field unchanged. -/
theorem dragMark_hovered (st : PointerState) : (dragMark st).hovered = st.hovered := by
  unfold dragMark; by_cases h : 0 < st.mouseDownTime <;> simp [h]

/-- The isDragging marking leaves the saved map unchanged. -/
theorem dragMark_saved (st : PointerState) : (dragMark st).saved = st.saved := by
  unfold dragMark; by_cases h : 0 < st.mouseDownTime <;> simp [h]

/-- The isDragging marking leaves every material reference unchanged. -/
theorem dragMark_matOf (st : PointerState) : (dragMark st).matOf = st.matOf := by
  unfold dragMark; by_cases h : 0 < st.mouseDownTime <;> simp [h]

/-- The isDragging marking leaves the material heap unchanged. -/
theorem dragMark_matStore (st : PointerState) : (dragMark st).matStore = st.matStore := by
  unfold dragMark; by_cases h : 0 < st.mouseDownTime <;> simp [h]

/-- The isDragging marking does not allocate. -/
theorem dragMark_nextMat (st : PointerState) : (dragMark st).nextMat = st.nextMat := by
  unfold dragMark; by_cases h : 0 < st.mouseDownTime <;> simp [h]

/-- Branch equation of the move handler when the nearest pickable hit is
already the hovered province. -/
theorem onMouseMove_same (cfg : SceneData) (st : PointerState) (hits : List ℕ)
    (hc : currentTarget cfg hits = (dragMark st).hovered) :
    onMouseMove cfg st hits = dragMark st := by
  simp only [onMouseMove]
  rw [if_pos hc]

/-- Branch equation of the move handler when the hover changes to
nothing: the outgoing province is restored, nothing is highlighted. -/
theorem onMouseMove_toNone (cfg : SceneData) (st : PointerState) (hits : List ℕ)
    (hc : currentTarget cfg hits ≠ (dragMark st).hovered)
    (hcur : currentTarget cfg hits = none) :
    onMouseMove cfg st hits = { restoreHovered (dragMark st) with hovered := none } := by
  simp only [onMouseMove]
  rw [if_neg hc, hcur]

/-- Branch equation of the move handler when the hover changes to a new
province: restore the outgoing one, then highlight the incoming one. -/
theorem onMouseMove_toSome (cfg : SceneData) (st : PointerState) (hits : List ℕ)
    (c : ℕ) (hc : currentTarget cfg hits ≠ (dragMark st).hovered)
    (hcur : currentTarget cfg hits = some c) :
    onMouseMove cfg st hits =
      { highlightNew (restoreHovered (dragMark st)) c with hovered := some c } := by
  simp only [onMouseMove]
  rw [if_neg hc, hcur]

/-- After a hover change, the restore step empties the saved map. -/
theorem restore_saved_empty (st : PointerState) (hInv : SavedInv st) :
    (restoreHovered (dragMark st)).saved = [] := by
  unfold SavedInv at hInv
  unfold restoreHovered
  cases hh : (dragMark st).hovered with
  | none =>
    rw [dragMark_hovered] at hh
    rw [hh] at hInv
    simp [dragMark_saved, hInv]
  | some r =>
    rw [dragMark_hovered] at hh
    rw [hh] at hInv
    obtain ⟨v, hv⟩ := hInv
    simp [dragMark_saved, hv, List.lookup, mapDelete]

/-- One pointer-move event preserves the hover invariant. -/
theorem savedInv_step (cfg : SceneData) (st : PointerState) (hits : List ℕ)
    (hInv : SavedInv st) : SavedInv (onMouseMove cfg st hits) := by
  by_cases hc : currentTarget cfg hits = (dragMark st).hovered
  · rw [onMouseMove_same cfg st hits hc]
    unfold SavedInv at hInv ⊢
    rw [dragMark_hovered, dragMark_saved]
    exact hInv
  · cases hcur : currentTarget cfg hits with
    | none =>
      rw [onMouseMove_toNone cfg st hits hc hcur]
      unfold SavedInv
      simp [restore_saved_empty st hInv]
    | some c =>
      rw [onMouseMove_toSome cfg st hits c hc hcur]
      unfold SavedInv
      simp only [highlightNew, mapSet, restore_saved_empty st hInv]
      simp [List.lookup]

/-- Any sequence of pointer-move events preserves the hover
invariant. -/
theorem savedInv_foldl (cfg : SceneData) :
    ∀ (events : List (List ℕ)) (st : PointerState), SavedInv st →
      SavedInv (events.foldl (onMouseMove cfg) st) := by
  intro events
  induction events with
  | nil => intro st h; exact h
  | cons e rest ih =>
    intro st h
    exact ih (onMouseMove cfg st e) (savedInv_step cfg st e h)

/-- Claim C2: across any sequence of pointer-move events from the initial
controller state, the saved-original-material map holds an entry for a
region exactly when that region is the currently hovered one, and at most
one region ever has a saved entry. -/
theorem c2_hover_saved_invariant (cfg : SceneData) (matOf0 : ℕ → ℕ)
    (matStore0 : ℕ → Material) (next0 : ℕ) (events : List (List ℕ)) :
    (∀ r, (((events.foldl (onMouseMove cfg) (initPointer matOf0 matStore0 next0)).saved.lookup r).isSome)
        ↔ (events.foldl (onMouseMove cfg) (initPointer matOf0 matStore0 next0)).hovered = some r) ∧
      (events.foldl (onMouseMove cfg) (initPointer matOf0 matStore0 next0)).saved.length ≤ 1 := by
  have hInv : SavedInv (events.foldl (onMouseMove cfg) (initPointer matOf0 matStore0 next0)) := by
    apply savedInv_foldl
    simp [SavedInv, initPointer]
  set fin := events.foldl (onMouseMove cfg) (initPointer matOf0 matStore0 next0)
  unfold SavedInv at hInv
  constructor
  · intro r
    cases hh : fin.hovered with
    | none =>
      rw [hh] at hInv
      simp [hInv]
    | some r0 =>
      rw [hh] at hInv
      obtain ⟨v, hv⟩ := hInv
      rw [hv]
      by_cases hr : r0 = r
      · subst hr
        simp [List.lookup]
      · have hbeq : (r == r0) = false := by simp [Ne.symm hr]
        simp [List.lookup, hbeq, hr]
  · cases hh : fin.hovered with
    | none => rw [hh] at hInv; simp [hInv]
    | some r0 =>
      rw [hh] at hInv
      obtain ⟨v, hv⟩ := hInv
      simp [hv]

/-! ## Pointer-up click discrimination (C3) -/

/-- Claim C3: pointer-up emits a selection exactly when the press lasted
under 200 ms, the pointer moved less than 5 screen units (squared
comparison), and the drag flag is clear — provided the re-cast at the up
position hits a pickable region — and the emitted name is that nearest
pickable hit's name; pointer-up always clears the pending-down time and
the drag flag. -/
theorem c3_click_discrimination (cfg : SceneData) (st : PointerState) (now : ℤ)
    (x y : ℚ) (hits : List ℕ) :
    (onMouseUp cfg st now x y hits).1.mouseDownTime = 0 ∧
    (onMouseUp cfg st now x y hits).1.isDragging = false ∧
    ((currentTarget cfg hits).isSome →
      ((onMouseUp cfg st now x y hits).2.isSome ↔
        (now - st.mouseDownTime < 200 ∧ (x - st.downX) ^ 2 + (y - st.downY) ^ 2 < 25 ∧
          st.isDragging = false))) ∧
    (∀ s, (onMouseUp cfg st now x y hits).2 = some s →
      some s = (currentTarget cfg hits).map cfg.provName) := by
  refine ⟨rfl, rfl, ?_, ?_⟩
  · intro hsome
    unfold onMouseUp
    by_cases hv : now - st.mouseDownTime < 200 ∧ (x - st.downX) ^ 2 + (y - st.downY) ^ 2 < 25 ∧
        st.isDragging = false
    · simp [hv, Option.isSome_map, hsome]
    · simp [hv]
  · intro s hs
    unfold onMouseUp at hs
    by_cases hv : now - st.mouseDownTime < 200 ∧ (x - st.downX) ^ 2 + (y - st.downY) ^ 2 < 25 ∧
        st.isDragging = false
    · simp only [hv, if_pos] at hs
      exact hs.symm
    · simp [hv] at hs





/-- Witness for C3, the spec's quick-click scenario: down at (100, 100)
at time 0, up at the same point at time 50 over the region emits the
selection. -/
theorem c3_click_discrimination_witness :
    (currentTarget oneProvScene [1]).isSome = true ∧
      ((onMouseUp oneProvScene downState 50 100 100 [1]).2.isSome ↔
        (50 - downState.mouseDownTime < 200 ∧
          ((100 : ℚ) - downState.downX) ^ 2 + ((100 : ℚ) - downState.downY) ^ 2 < 25 ∧
          downState.isDragging = false)) :=
  ⟨by decide,
   (c3_click_discrimination oneProvScene downState 50 100 100 [1]).2.2.1 (by decide)⟩

/-! ## Material object discipline of the move handler (C10) -/

/-- Restoring the outgoing province touches no material object. -/
theorem restoreHovered_matStore (st : PointerState) :
    (restoreHovered st).matStore = st.matStore := by
  unfold restoreHovered
  cases hh : st.hovered with
  | none => rfl
  | some r => cases hl : st.saved.lookup r with
    | none => simp [hl]
    | some sid => simp [hl]

/-- Restoring does not allocate. -/
theorem restoreHovered_nextMat (st : PointerState) :
    (restoreHovered st).nextMat = st.nextMat := by
  unfold restoreHovered
  cases hh : st.hovered with
  | none => rfl
  | some r => cases hl : st.saved.lookup r with
    | none => simp [hl]
    | some sid => simp [hl]

/-- Restoring leaves the material reference of every mesh other than the
outgoing hovered one unchanged. -/
theorem restoreHovered_matOf_ne (st : PointerState) (m : ℕ)
    (h : st.hovered ≠ some m) : (restoreHovered st).matOf m = st.matOf m := by
  unfold restoreHovered
  cases hh : st.hovered with
  | none => rfl
  | some r =>
    cases hl : st.saved.lookup r with
    | none => simp [hl]
    | some sid =>
      have hmr : m ≠ r := by
        intro hc
        rw [hh, hc] at h
        exact h rfl
      simp [hl, hmr]

/-- Restoring installs the exact saved material reference on the
outgoing hovered mesh. -/
theorem restoreHovered_matOf_saved (st : PointerState) (r sid : ℕ)
    (hh : st.hovered = some r) (hs : st.saved.lookup r = some sid) :
    (restoreHovered st).matOf r = sid := by
  unfold restoreHovered
  rw [hh]
  simp [hs]

/-- Map.set makes the map answer the new value at the set key. -/
theorem lookup_mapSet_self : ∀ (m : List (ℕ × ℕ)) (k v : ℕ),
    (mapSet m k v).lookup k = some v := by
  intro m k v
  unfold mapSet
  by_cases h : (m.lookup k).isSome
  · simp only [h, if_pos]
    induction m with
    | nil => simp [List.lookup] at h
    | cons a t ih =>
      rw [List.map_cons]
      by_cases hk : a.1 = k
      · have hb : (a.1 == k) = true := by simp [hk]
        rw [if_pos hb]
        simp [List.lookup]
      · have hb : ¬((a.1 == k) = true) := by simp [hk]
        rw [if_neg hb]
        have hkq : (k == a.1) = false := by simp [Ne.symm hk]
        cases a with
        | mk a1 a2 =>
          simp only [List.lookup, hkq] at h ⊢
          exact ih h
  · simp only [h, if_neg (by simp [h] : ¬(m.lookup k).isSome = true)]
    simp [List.lookup]

/-- Claim C10: a pointer-move event never mutates any already-allocated
material object; when a hover change occurs, the outgoing region gets its
exact saved material reference back, every mesh other than the outgoing
and incoming regions keeps its material reference, and the incoming
region's old material is saved unmodified while the highlight lives only
on a freshly allocated clone carrying the emissive tint and raised
opacity. -/
theorem c10_material_object_discipline (cfg : SceneData) (st : PointerState)
    (hits : List ℕ) :
    (∀ i, i < st.nextMat → (onMouseMove cfg st hits).matStore i = st.matStore i) ∧
    (∀ r sid, st.hovered = some r → currentTarget cfg hits ≠ st.hovered →
      st.saved.lookup r = some sid → (onMouseMove cfg st hits).matOf r = sid) ∧
    (∀ m, st.hovered ≠ some m → currentTarget cfg hits ≠ some m →
      (onMouseMove cfg st hits).matOf m = st.matOf m) ∧
    (∀ c, currentTarget cfg hits = some c → currentTarget cfg hits ≠ st.hovered →
      (onMouseMove cfg st hits).matOf c = st.nextMat ∧
      (onMouseMove cfg st hits).saved.lookup c = some (st.matOf c) ∧
      (onMouseMove cfg st hits).matStore st.nextMat =
        { st.matStore (st.matOf c) with emissive := 0x444444, opacity := 9/10 }) := by
  by_cases hc : currentTarget cfg hits = (dragMark st).hovered
  · rw [onMouseMove_same cfg st hits hc]
    rw [dragMark_hovered] at hc
    refine ⟨?_, ?_, ?_, ?_⟩
    · intro i _; rw [dragMark_matStore]
    · intro r sid hh hne _; exact absurd hc hne
    · intro m _ _; rw [dragMark_matOf]
    · intro c hcur hne; exact absurd hc hne
  · refine ⟨?_, ?_, ?_, ?_⟩
    · intro i hi
      cases hcur : currentTarget cfg hits with
      | none =>
        rw [onMouseMove_toNone cfg st hits hc hcur]
        show (restoreHovered (dragMark st)).matStore i = st.matStore i
        rw [restoreHovered_matStore, dragMark_matStore]
      | some c =>
        rw [onMouseMove_toSome cfg st hits c hc hcur]
        show (highlightNew (restoreHovered (dragMark st)) c).matStore i = st.matStore i
        unfold highlightNew
        have hne2 : i ≠ (restoreHovered (dragMark st)).nextMat := by
          rw [restoreHovered_nextMat, dragMark_nextMat]
          omega
        simp only [hne2, if_false]
        rw [restoreHovered_matStore, dragMark_matStore]
    · intro r sid hh hne hs
      rw [dragMark_hovered] at hc
      have hr1 : (restoreHovered (dragMark st)).matOf r = sid := by
        apply restoreHovered_matOf_saved
        · rw [dragMark_hovered]; exact hh
        · rw [dragMark_saved]; exact hs
      cases hcur : currentTarget cfg hits with
      | none =>
        rw [onMouseMove_toNone cfg st hits (by rw [dragMark_hovered]; exact hne ∘ Eq.symm ∘ Eq.symm) hcur]
        exact hr1
      | some c =>
        have hcr : c ≠ r := by
          intro hcontra
          rw [hcur, hcontra, hh] at hne
          exact hne rfl
        rw [onMouseMove_toSome cfg st hits c (by rw [dragMark_hovered]; exact hne) hcur]
        show (highlightNew (restoreHovered (dragMark st)) c).matOf r = sid
        unfold highlightNew
        simp only
        rw [if_neg (Ne.symm hcr)]
        exact hr1
    · intro m hm hcm
      rw [dragMark_hovered] at hc
      have hr1 : (restoreHovered (dragMark st)).matOf m = st.matOf m := by
        rw [restoreHovered_matOf_ne, dragMark_matOf]
        rw [dragMark_hovered]; exact hm
      cases hcur : currentTarget cfg hits with
      | none =>
        rw [onMouseMove_toNone cfg st hits (by rw [dragMark_hovered]; exact hc) hcur]
        exact hr1
      | some c =>
        have hcm2 : m ≠ c := by
          intro hcontra
          rw [hcur, ← hcontra] at hcm
          exact hcm rfl
        rw [onMouseMove_toSome cfg st hits c (by rw [dragMark_hovered]; exact hc) hcur]
        show (highlightNew (restoreHovered (dragMark st)) c).matOf m = st.matOf m
        unfold highlightNew
        simp only
        rw [if_neg hcm2]
        exact hr1
    · intro c hcur hne
      rw [dragMark_hovered] at hc
      have hnotc : st.hovered ≠ some c := by
        intro hcontra
        rw [hcur] at hne
        exact hne hcontra.symm
      have hr1 : (restoreHovered (dragMark st)).matOf c = st.matOf c := by
        rw [restoreHovered_matOf_ne, dragMark_matOf]
        rw [dragMark_hovered]; exact hnotc
      rw [onMouseMove_toSome cfg st hits c (by rw [dragMark_hovered]; exact hc) hcur]
      refine ⟨?_, ?_, ?_⟩
      · show (highlightNew (restoreHovered (dragMark st)) c).matOf c = st.nextMat
        unfold highlightNew
        simp [restoreHovered_nextMat, dragMark_nextMat]
      · show ((highlightNew (restoreHovered (dragMark st)) c).saved.lookup c) = some (st.matOf c)
        unfold highlightNew
        simp only
        rw [← hr1]
        exact lookup_mapSet_self _ c _
      · show (highlightNew (restoreHovered (dragMark st)) c).matStore st.nextMat =
          { st.matStore (st.matOf c) with emissive := 0x444444, opacity := 9/10 }
        unfold highlightNew
        simp only
        rw [if_pos (by rw [restoreHovered_nextMat, dragMark_nextMat])]
        rw [restoreHovered_matStore, dragMark_matStore, hr1]



/-- Witness for C10: hovering from province 2 over to province 1
reinstalls 2's exact saved material 5, installs the fresh clone
(identity 10 = nextMat) on 1, and saves 1's old material reference. -/
theorem c10_material_object_discipline_witness :
    (onMouseMove oneProvScene c10state [1]).matOf 2 = 5 ∧
      (onMouseMove oneProvScene c10state [1]).matOf 1 = c10state.nextMat ∧
      (onMouseMove oneProvScene c10state [1]).saved.lookup 1 = some (c10state.matOf 1) :=
  ⟨(c10_material_object_discipline oneProvScene c10state [1]).2.1 2 5 rfl (by decide) rfl,
   ((c10_material_object_discipline oneProvScene c10state [1]).2.2.2 1 (by decide) (by decide)).1,
   ((c10_material_object_discipline oneProvScene c10state [1]).2.2.2 1 (by decide) (by decide)).2.1⟩

/-! ## Failure locality of the assembler (C5) and the assembler's
order, palette and determinism (C7) -/

/-- The assembler loop on an error-free collection: every feature has
its geometry and properties objects present, so no member access throws
and the loop computes the closed-form list. -/
theorem assembleAux_ok {V : Type} (proj : K → K → V) (ec : List K → List ℕ → List ℕ) :
    ∀ (fs : List (Feature K)) (i : ℕ),
      (∀ f ∈ fs, f.properties.isSome ∧ f.geometry.isSome) →
      assembleAux proj ec i fs = .ok (assembledList proj ec i fs) := by
  intro fs
  induction fs with
  | nil => intro i _; rfl
  | cons f rest ih =>
    intro i hall
    obtain ⟨hp, hg⟩ := hall f (List.mem_cons_self f rest)
    have hrest : ∀ f2 ∈ rest, f2.properties.isSome ∧ f2.geometry.isSome := fun f2 h2 =>
      hall f2 (List.mem_cons_of_mem f h2)
    obtain ⟨props, hprops⟩ := Option.isSome_iff_exists.mp hp
    obtain ⟨g, hgeom⟩ := Option.isSome_iff_exists.mp hg
    have hb := builder_ok proj ec (provinceOpts i) f g hgeom
    unfold assembleAux assembledList assembleMeshAt
    rw [hprops, hb, ih (i + 1) hrest]
    by_cases hempty : (featureVerts proj ec g).isEmpty <;> simp [hempty]

/-- The assembler loop aborts with the first thrown error: a feature
with absent geometry throws, and no feature after it is processed, no
matter how well-formed. -/
theorem assembleAux_error {V : Type} (proj : K → K → V) (ec : List K → List ℕ → List ℕ)
    (fbad : Feature K) (hbad : fbad.geometry = none) (hbadp : fbad.properties.isSome)
    (fs2 : List (Feature K)) :
    ∀ (fs1 : List (Feature K)) (i : ℕ),
      (∀ f ∈ fs1, f.properties.isSome ∧ f.geometry.isSome) →
      assembleAux proj ec i (fs1 ++ fbad :: fs2) = .error .typeError := by
  intro fs1
  induction fs1 with
  | nil =>
    intro i _
    obtain ⟨props, hprops⟩ := Option.isSome_iff_exists.mp hbadp
    have : createProvinceMeshFromFeature proj ec (provinceOpts i) fbad = .error .typeError := by
      unfold createProvinceMeshFromFeature
      rw [hbad]
    unfold assembleAux
    rw [List.nil_append] at *
    show assembleAux proj ec i (fbad :: fs2) = .error .typeError
    unfold assembleAux
    rw [hprops, this]
  | cons f rest ih =>
    intro i hall
    obtain ⟨hp, hg⟩ := hall f (List.mem_cons_self f rest)
    have hrest : ∀ f2 ∈ rest, f2.properties.isSome ∧ f2.geometry.isSome := fun f2 h2 =>
      hall f2 (List.mem_cons_of_mem f h2)
    obtain ⟨props, hprops⟩ := Option.isSome_iff_exists.mp hp
    obtain ⟨g, hgeom⟩ := Option.isSome_iff_exists.mp hg
    have hb := builder_ok proj ec (provinceOpts i) f g hgeom
    rw [List.cons_append]
    unfold assembleAux
    rw [hprops, hb, ih (i + 1) hrest]
    by_cases hempty : (featureVerts proj ec g).isEmpty <;> simp [hempty]

/-- Claim C5 (amended): a feature that merely warns (unsupported
geometry type) or triangulates to nothing does not disturb the rest —
when every feature's geometry and properties objects are present the
whole collection assembles without error — but a feature whose geometry
object is absent throws, and the throw aborts the processing of every
remaining feature of the collection. -/
theorem c5_failure_propagation :
    (∀ (K V : Type) (_inst : LinearOrderedCommRing K) (proj : K → K → V)
        (ec : List K → List ℕ → List ℕ) (fs : List (Feature K)),
        (∀ f ∈ fs, f.properties.isSome ∧ f.geometry.isSome) →
        ∃ ms, createProvincesFromGeoJson proj ec fs = .ok ms) ∧
    (∀ (K V : Type) (_inst : LinearOrderedCommRing K) (proj : K → K → V)
        (ec : List K → List ℕ → List ℕ) (fs1 : List (Feature K)) (fbad : Feature K)
        (fs2 : List (Feature K)),
        fbad.geometry = none → fbad.properties.isSome →
        (∀ f ∈ fs1, f.properties.isSome ∧ f.geometry.isSome) →
        createProvincesFromGeoJson proj ec (fs1 ++ fbad :: fs2) = .error .typeError) := by
  constructor
  · intro K V _inst proj ec fs hall
    exact ⟨assembledList proj ec 0 fs, assembleAux_ok proj ec fs 0 hall⟩
  · intro K V _inst proj ec fs1 fbad fs2 hbad hbadp hall
    exact assembleAux_error proj ec fbad hbad hbadp fs2 fs1 0 hall

/-- Witness for the amended C5 on a concrete error-free collection. -/
theorem c5_failure_propagation_witness :
    ∃ ms, createProvincesFromGeoJson projT earcutSpec [goodFeature, pointFeature] = .ok ms :=
  c5_failure_propagation.1 ℤ (ℤ × ℤ) inferInstance projT earcutSpec
    [goodFeature, pointFeature] (by decide)

/-- Counterexample to C5 as stated: in the collection [badFeature,
goodFeature] the first feature's thrown TypeError aborts the whole
forEach, so the second feature — which on its own builds a mesh — is
never processed and contributes nothing. -/
theorem c5_abort_counterexample :
    createProvincesFromGeoJson projT earcutSpec [badFeature, goodFeature] = .error .typeError ∧
      (assembleMeshAt projT earcutSpec 1 goodFeature).isSome = true := by
  constructor
  · rfl
  · rfl

/-- The mesh of the feature at position j of the collection appears in
the assembler's closed-form output (when it builds one). -/
theorem assembledList_mem_at {V : Type} (proj : K → K → V)
    (ec : List K → List ℕ → List ℕ) :
    ∀ (fs : List (Feature K)) (i j : ℕ) (f : Feature K) (m : Mesh V),
      fs.get? j = some f → assembleMeshAt proj ec (i + j) f = some m →
      m ∈ assembledList proj ec i fs := by
  intro fs
  induction fs with
  | nil => intro i j f m hget _; simp at hget
  | cons f0 rest ih =>
    intro i j f m hget hmesh
    cases j with
    | zero =>
      simp only [List.get?_cons_zero, Option.some.injEq] at hget
      subst hget
      unfold assembledList
      rw [show i + 0 = i from rfl] at hmesh
      rw [hmesh]
      exact List.mem_cons_self m _
    | succ j0 =>
      simp only [List.get?_cons_succ] at hget
      have hmem := ih (i + 1) j0 f m hget (by rw [show i + 1 + j0 = i + (j0 + 1) from by omega]; exact hmesh)
      unfold assembledList
      cases h0 : assembleMeshAt proj ec i f0 with
      | none => exact hmem
      | some m0 => exact List.mem_cons_of_mem m0 hmem

/-- Claim C7: with every feature's geometry and properties present, the
assembler succeeds with the closed-form list — features in collection
order, each built with the palette color at its index mod the palette
size, features that build no mesh skipped — every surviving mesh of the
feature at index j appears in the output carrying the fill color
palette[j mod 15], and a second run of the assembler produces the
identical output (the embedding is a pure function). -/
theorem c7_assembler_order_palette {V : Type} (proj : K → K → V)
    (ec : List K → List ℕ → List ℕ) (fs : List (Feature K))
    (hall : ∀ f ∈ fs, f.properties.isSome ∧ f.geometry.isSome) :
    createProvincesFromGeoJson proj ec fs = .ok (assembledList proj ec 0 fs) ∧
    (∀ (j : ℕ) (f : Feature K) (props : PropBag) (m : Mesh V),
      fs.get? j = some f → f.properties = some props →
      createProvinceMeshFromFeature proj ec (provinceOpts j) f = .ok (some m) →
      withProvinceMeta props m ∈ assembledList proj ec 0 fs ∧
      (withProvinceMeta props m).material.color =
        provinceColors.getD (j % provinceColors.length) 0) ∧
    createProvincesFromGeoJson proj ec fs = createProvincesFromGeoJson proj ec fs := by
  refine ⟨assembleAux_ok proj ec fs 0 hall, ?_, rfl⟩
  intro j f props m hget hprops hbuild
  constructor
  · apply assembledList_mem_at proj ec fs 0 j f
    · exact hget
    · unfold assembleMeshAt
      rw [Nat.zero_add, hprops, hbuild]
  · show m.material.color = _
    rw [builder_material proj ec (provinceOpts j) f m hbuild]
    rfl

/-- Witness for C7 on a concrete two-feature collection (the second
feature is skipped as an unsupported geometry type). -/
theorem c7_assembler_order_palette_witness :
    createProvincesFromGeoJson projT earcutSpec [goodFeature, pointFeature] =
      .ok (assembledList projT earcutSpec 0 [goodFeature, pointFeature]) :=
  (c7_assembler_order_palette projT earcutSpec [goodFeature, pointFeature] (by decide)).1

/-! ## The MultiPolygon vertex-indexing bug (C1)

The source shares the geom3DVertices array across all polygons of one
feature (it is declared at feature level and never reset), while the
earcut indices it looks up are relative to the current polygon's own
flat2D array.  For the first polygon the two agree; for every later
polygon the indices land at the start of the accumulated array, i.e. in
the FIRST polygon's vertices.  The evaluation below exhibits this on a
MultiPolygon of two distinct triangles under the tagging projection: the
second triangle re-emits the first polygon's projected vertices instead
of its own. -/

/-- Claim C1 fails on the code: on the MultiPolygon [tri1, tri2] the
emitted vertex buffer holds tri1's projected vertices twice, and its
second triangle is not tri2's own projected vertices as the claim
requires. -/
theorem c1_multipolygon_vertex_reuse :
    featureVerts projT earcutSpec (.multiPolygon [[tri1], [tri2]]) =
      [(0, 0), (1, 0), (0, 1), (0, 0), (1, 0), (0, 1)] ∧
      (featureVerts projT earcutSpec (.multiPolygon [[tri1], [tri2]])).drop 3 ≠
        [projT 10 10, projT 11 10, projT 10 11] := by
  constructor
  · rfl
  · decide

/-! ## The projection invariant (C8) -/



/-- A list lookup with default yields a list element or the default. -/
theorem getD_mem_or {α : Type} : ∀ (l : List α) (i : ℕ) (d : α),
    l.getD i d ∈ l ∨ l.getD i d = d := by
  intro l
  induction l with
  | nil => intro i d; right; cases i <;> rfl
  | cons a t ih =>
    intro i d
    cases i with
    | zero => left; exact List.mem_cons_self a t
    | succ i0 =>
      rcases ih i0 d with h | h
      · left; exact List.mem_cons_of_mem a h
      · right; exact h

/-- Every vertex processPolygon accumulates — in the 3D vertex array and
in the emitted buffer — is a value of the projection closure. -/
theorem processPolygon_projVals {V : Type} (proj : K → K → V)
    (ec : List K → List ℕ → List ℕ) (acc : List V × List V)
    (rings : List (List (Pt K)))
    (h1 : ∀ v ∈ acc.1, IsProjVal proj v) (h2 : ∀ v ∈ acc.2, IsProjVal proj v) :
    (∀ v ∈ (processPolygon proj ec acc rings).1, IsProjVal proj v) ∧
    (∀ v ∈ (processPolygon proj ec acc rings).2, IsProjVal proj v) := by
  have hgeom : ∀ v ∈ acc.1 ++ ringVerts proj rings, IsProjVal proj v := by
    intro v hv
    rcases List.mem_append.mp hv with h | h
    · exact h1 v h
    · unfold ringVerts at h
      obtain ⟨r, _, hr⟩ := List.mem_flatMap.mp h
      obtain ⟨c, _, hc⟩ := List.mem_map.mp hr
      exact ⟨c.1, c.2, hc.symm⟩
  constructor
  · exact hgeom
  · intro v hv
    unfold processPolygon at hv
    simp only at hv
    rcases List.mem_append.mp hv with h | h
    · exact h2 v h
    · obtain ⟨t, _, ht⟩ := List.mem_flatMap.mp h
      have hcase : ∀ (j : ℕ),
          (acc.1 ++ ringVerts proj rings).getD j (proj 0 0) ∈ acc.1 ++ ringVerts proj rings ∨
          (acc.1 ++ ringVerts proj rings).getD j (proj 0 0) = proj 0 0 :=
        fun j => getD_mem_or _ j _
      have hval : ∀ (j : ℕ), IsProjVal proj ((acc.1 ++ ringVerts proj rings).getD j (proj 0 0)) := by
        intro j
        rcases hcase j with h | h
        · exact hgeom _ h
        · exact ⟨0, 0, h⟩
      simp only [List.mem_cons, List.not_mem_nil, or_false] at ht
      rcases ht with ht | ht | ht
      · exact ht ▸ hval t.1
      · exact ht ▸ hval t.2.1
      · exact ht ▸ hval t.2.2

/-- Every vertex a feature's geometry emits is a value of the projection
closure. -/
theorem featureVerts_projVal {V : Type} (proj : K → K → V)
    (ec : List K → List ℕ → List ℕ) (g : Geometry K) :
    ∀ v ∈ featureVerts proj ec g, IsProjVal proj v := by
  cases g with
  | polygon rings =>
    intro v hv
    exact (processPolygon_projVals proj ec ([], []) rings (by simp) (by simp)).2 v hv
  | multiPolygon polys =>
    have : ∀ (acc : List V × List V),
        (∀ v ∈ acc.1, IsProjVal proj v) → (∀ v ∈ acc.2, IsProjVal proj v) →
        (∀ v ∈ (polys.foldl (processPolygon proj ec) acc).1, IsProjVal proj v) ∧
        (∀ v ∈ (polys.foldl (processPolygon proj ec) acc).2, IsProjVal proj v) := by
      induction polys with
      | nil => intro acc h1 h2; exact ⟨h1, h2⟩
      | cons p rest ih =>
        intro acc h1 h2
        have hstep := processPolygon_projVals proj ec acc p h1 h2
        exact ih (processPolygon proj ec acc p) hstep.1 hstep.2
    intro v hv
    exact (this ([], []) (by simp) (by simp)).2 v hv
  | unsupported t => intro v hv; cases hv

/-- Claim C8: the projection lands exactly on the sphere of the given
radius (for nonnegative radius, over the reals), and consequently every
3D vertex a feature emits — all projected at radius + elevation — lies
at distance radius + elevation from the origin. -/
theorem c8_projection_radius :
    (∀ lon lat r : ℝ, 0 ≤ r → norm3 (lonLatToCartesian lon lat r) = r) ∧
    (∀ (ec : List ℝ → List ℕ → List ℕ) (g : Geometry ℝ) (r e : ℝ), 0 ≤ r + e →
      ∀ v ∈ featureVerts (fun lon lat => lonLatToCartesian lon lat (r + e)) ec g,
        norm3 v = r + e) := by
  have hpart1 : ∀ lon lat r : ℝ, 0 ≤ r → norm3 (lonLatToCartesian lon lat r) = r := by
    intro lon lat r hr
    unfold lonLatToCartesian norm3
    simp only
    have h1 := Real.sin_sq_add_cos_sq ((90 - lat) * (Real.pi / 180))
    have h2 := Real.sin_sq_add_cos_sq ((lon + 180) * (Real.pi / 180))
    rw [show (-(Real.sin ((90 - lat) * (Real.pi / 180)) * Real.cos ((lon + 180) * (Real.pi / 180))) * r) ^ 2 +
        (Real.cos ((90 - lat) * (Real.pi / 180)) * r) ^ 2 +
        (Real.sin ((90 - lat) * (Real.pi / 180)) * Real.sin ((lon + 180) * (Real.pi / 180)) * r) ^ 2 = r ^ 2 from by
      linear_combination (r ^ 2 * Real.sin ((90 - lat) * (Real.pi / 180)) ^ 2) * h2 + r ^ 2 * h1]
    exact Real.sqrt_sq hr
  refine ⟨hpart1, ?_⟩
  intro ec g r e hre v hv
  obtain ⟨lon, lat, hval⟩ :=
    featureVerts_projVal (fun lon lat => lonLatToCartesian lon lat (r + e)) ec g v hv
  rw [hval]
  exact hpart1 lon lat (r + e) hre

/-- Witness for C8 at the base radius 2 and at the province shell radius
2.02 over a triangle feature. -/
theorem c8_projection_radius_witness :
    ((0 : ℝ) ≤ 2 ∧ norm3 (lonLatToCartesian 0 0 2) = 2) ∧
      ((0 : ℝ) ≤ 2 + 1/50 ∧
        ∀ v ∈ featureVerts (fun lon lat => lonLatToCartesian lon lat (2 + 1/50)) earcutSpec
          (.polygon [[((0 : ℝ), (0 : ℝ)), (1, 0), (0, 1)]]),
          norm3 v = 2 + 1/50) :=
  ⟨⟨by norm_num, c8_projection_radius.1 0 0 2 (by norm_num)⟩,
   ⟨by norm_num, c8_projection_radius.2 earcutSpec _ 2 (1/50) (by norm_num)⟩⟩

/-! ## Triangulation closure on convex polygons (C9)

A simple convex polygon is formalised as a vertex list in strictly
convex position: every index triple in order is a strict left turn
(counter-clockwise ring) or every such triple is a strict right turn
(clockwise ring).  This matches the spec's "simple convex polygon" for
rings without repeated or collinear vertices, on which real earcut also
yields exactly N-2 triangles (it drops degenerate triangles). -/



/-- Rotating the three arguments of the turn test preserves it. -/
theorem cross_rot (a b c : Pt K) : cross a b c = cross b c a := by
  unfold cross; ring

/-- Swapping the last two arguments of the turn test negates it. -/
theorem cross_swap23 (a b c : Pt K) : cross a c b = -cross a b c := by
  unfold cross; ring

/-- Reversing the three arguments of the turn test negates it. -/
theorem cross_rev (a b c : Pt K) : cross c b a = -cross a b c := by
  unfold cross; ring

/-- Indexing after removing an entry skips over the removed position. -/
theorem getD_eraseIdx_lt (l : List ℕ) :
    ∀ (k : ℕ), k < l.length → ∀ (i : ℕ) (d : ℕ),
      (l.eraseIdx k).getD i d = if i < k then l.getD i d else l.getD (i + 1) d := by
  induction l with
  | nil => intro k hk; simp at hk
  | cons a t ih =>
    intro k hk i d
    cases k with
    | zero => simp [List.eraseIdx]
    | succ k0 =>
      cases i with
      | zero => simp [List.eraseIdx]
      | succ i0 =>
        have hk0 : k0 < t.length := by simpa using hk
        show (t.eraseIdx k0).getD i0 d = _
        rw [ih k0 hk0 i0 d]
        by_cases hik : i0 < k0
        · rw [if_pos hik, if_pos (by omega)]
          rfl
        · rw [if_neg hik, if_neg (by omega)]
          rfl

/-- Convex position of the index cycle survives removing a position. -/
theorem convexIdx_eraseIdx (pts : List (Pt K)) (idx : List ℕ) (k : ℕ)
    (hk : k < idx.length) (h : ConvexIdx pts idx) :
    ConvexIdx pts (idx.eraseIdx k) := by
  intro r hr q hq p hp
  have hlen : (idx.eraseIdx k).length = idx.length - 1 := by
    rw [List.length_eraseIdx]
    simp [hk]
  rw [hlen] at hr
  rw [getD_eraseIdx_lt idx k hk p, getD_eraseIdx_lt idx k hk q, getD_eraseIdx_lt idx k hk r]
  by_cases hpk : p < k
  · by_cases hqk : q < k
    · by_cases hrk : r < k
      · rw [if_pos hpk, if_pos hqk, if_pos hrk]
        exact h r (by omega) q hq p hp
      · rw [if_pos hpk, if_pos hqk, if_neg hrk]
        exact h (r + 1) (by omega) q (by omega) p hp
    · by_cases hrk : r < k
      · omega
      · rw [if_pos hpk, if_neg hqk, if_neg hrk]
        exact h (r + 1) (by omega) (q + 1) (by omega) p (by omega)
  · by_cases hqk : q < k
    · omega
    · by_cases hrk : r < k
      · omega
      · rw [if_neg hpk, if_neg hqk, if_neg hrk]
        exact h (r + 1) (by omega) (q + 1) (by omega) (p + 1) (by omega)

/-- On a strictly convex counter-clockwise cycle with more than three
remaining vertices, position 0 passes the ear test: its corner is a left
turn and every other remaining vertex lies strictly right of the closing
diagonal of the candidate triangle. -/
theorem isEar_zero (pts : List (Pt K)) (idx : List ℕ) (h : ConvexIdx pts idx)
    (hm : 3 < idx.length) : isEar pts idx 0 = true := by
  unfold isEar
  have e1 : (0 + idx.length - 1) % idx.length = idx.length - 1 := by
    rw [Nat.zero_add]
    exact Nat.mod_eq_of_lt (by omega)
  have e2 : (0 + 1) % idx.length = 1 := Nat.mod_eq_of_lt (by omega)
  rw [e1, e2]
  rw [Bool.and_eq_true]
  constructor
  · rw [decide_eq_true_eq, cross_rot]
    exact h (idx.length - 1) (by omega) 1 (by omega) 0 (by omega)
  · rw [List.all_eq_true]
    intro j hj
    rw [List.mem_range] at hj
    by_cases hj1 : j = idx.length - 1
    · simp [hj1]
    · by_cases hj2 : j = 0
      · simp [hj2]
      · by_cases hj3 : j = 1
        · simp [hj3]
        · have hneg : cross (vtx pts (idx.getD 1 0)) (vtx pts (idx.getD (idx.length - 1) 0))
              (vtx pts (idx.getD j 0)) < 0 := by
            have hc := h (idx.length - 1) (by omega) j (by omega) 1 (by omega)
            rw [cross_swap23]
            exact neg_lt_zero.mpr hc
          have hfalse : inTriangle (vtx pts (idx.getD (idx.length - 1) 0))
              (vtx pts (idx.getD 0 0)) (vtx pts (idx.getD 1 0)) (vtx pts (idx.getD j 0)) = false := by
            unfold inTriangle
            have : decide (0 ≤ cross (vtx pts (idx.getD 1 0))
                (vtx pts (idx.getD (idx.length - 1) 0)) (vtx pts (idx.getD j 0))) = false := by
              rw [decide_eq_false_iff_not]
              exact not_le.mpr hneg
            rw [this]
            simp
          have hb1 : (j == idx.length - 1) = false := by simp [hj1]
          have hb2 : (j == 0) = false := by simp [hj2]
          have hb3 : (j == 1) = false := by simp [hj3]
          rw [hb1, hb2, hb3, hfalse]
          rfl

/-- On a strictly convex counter-clockwise cycle with more than three
remaining vertices the ear search returns position 0. -/
theorem findEar_zero (pts : List (Pt K)) (idx : List ℕ) (h : ConvexIdx pts idx)
    (hm : 3 < idx.length) : findEar pts idx = some 0 := by
  unfold findEar
  obtain ⟨n, hn⟩ : ∃ n, idx.length = n + 1 := ⟨idx.length - 1, by omega⟩
  rw [hn, List.range_succ_eq_map]
  exact List.find?_cons_of_pos _ (isEar_zero pts idx h hm)

/-- The clipping loop on a strictly convex counter-clockwise cycle of at
least three vertices, with enough fuel, emits exactly three indices per
clipped ear: 3 times (cycle length minus 2) indices in total. -/
theorem earClipAux_length (pts : List (Pt K)) :
    ∀ (fuel : ℕ) (idx : List ℕ), ConvexIdx pts idx → 3 ≤ idx.length →
      idx.length ≤ fuel → (earClipAux pts fuel idx).length = 3 * (idx.length - 2) := by
  intro fuel
  induction fuel with
  | zero => intro idx _ h3 hf; omega
  | succ fuel ih =>
    intro idx hconv h3 hf
    unfold earClipAux
    rw [if_neg (by omega : ¬idx.length < 3)]
    by_cases heq : idx.length = 3
    · rw [if_pos (by simp [heq])]
      simp [heq]
    · rw [if_neg (by simp [heq])]
      have hm : 3 < idx.length := by omega
      rw [findEar_zero pts idx hconv hm]
      have herase : (idx.eraseIdx 0).length = idx.length - 1 := by
        rw [List.length_eraseIdx]
        simp [show 0 < idx.length by omega]
      have hconv2 : ConvexIdx pts (idx.eraseIdx 0) :=
        convexIdx_eraseIdx pts idx 0 (by omega) hconv
      show (_ :: _ :: _ :: earClipAux pts fuel (idx.eraseIdx 0)).length = _
      rw [List.length_cons, List.length_cons, List.length_cons]
      rw [ih (idx.eraseIdx 0) hconv2 (by omega) (by omega)]
      omega

/-- Indexing into a range list returns the index. -/
theorem range_getD (n i : ℕ) (h : i < n) : (List.range n).getD i 0 = i := by
  rw [List.getD_eq_getElem _ _ (by simpa using h)]
  exact List.getElem_range i (by simpa using h)

/-- A polygon in strictly convex counter-clockwise position makes its
full index range a strictly convex cycle. -/
theorem convexIdx_range (pts : List (Pt K)) (h : ConvexCCW pts) :
    ConvexIdx pts (List.range pts.length) := by
  intro r hr q hq p hp
  rw [List.length_range] at hr
  rw [range_getD _ p (by omega), range_getD _ q (by omega), range_getD _ r (by omega)]
  exact h r hr q hq p hp

/-- Ear clipping a strictly convex counter-clockwise polygon with N
vertices emits exactly 3 (N - 2) indices. -/
theorem earClip_length (pts : List (Pt K)) (h : ConvexCCW pts) (h3 : 3 ≤ pts.length) :
    (earClip pts).length = 3 * (pts.length - 2) := by
  unfold earClip
  rw [earClipAux_length pts pts.length (List.range pts.length) (convexIdx_range pts h)
    (by simpa using h3) (by simp)]
  simp

/-- The shoelace accumulator equals the fan decomposition from the
fixed apex plus the closing edge term of the current head. -/
theorem shoelaceAux_eq (p0 : Pt K) : ∀ (rest : List (Pt K)) (a : Pt K),
    shoelaceAux p0 a rest = fanSum p0 (a :: rest) + (a.1 * p0.2 - p0.1 * a.2) := by
  intro rest
  induction rest with
  | nil =>
    intro a
    show a.1 * p0.2 - p0.1 * a.2 = fanSum p0 [a] + (a.1 * p0.2 - p0.1 * a.2)
    show a.1 * p0.2 - p0.1 * a.2 = 0 + (a.1 * p0.2 - p0.1 * a.2)
    ring
  | cons b t ih =>
    intro a
    show (a.1 * b.2 - b.1 * a.2) + shoelaceAux p0 b t = _
    rw [ih b]
    show _ = cross p0 a b + fanSum p0 (b :: t) + (a.1 * p0.2 - p0.1 * a.2)
    unfold cross
    ring

/-- The shoelace signed area of a ring equals its fan decomposition from
the first vertex. -/
theorem signedArea2_eq_fan (p0 : Pt K) (rest : List (Pt K)) :
    signedArea2 (p0 :: rest) = fanSum p0 (p0 :: rest) := by
  show shoelaceAux p0 p0 rest = _
  rw [shoelaceAux_eq p0 rest p0]
  ring

/-- A fan over at least one edge, all of whose triangles turn left, has
positive total signed area. -/
theorem fanSum_pos (p0 : Pt K) : ∀ (l : List (Pt K)), 2 ≤ l.length →
    List.Chain' (fun x y => 0 < cross p0 x y) l → 0 < fanSum p0 l := by
  intro l
  induction l with
  | nil => intro h _; simp at h
  | cons a t ih =>
    intro hlen hchain
    cases t with
    | nil => simp at hlen
    | cons b t2 =>
      have hab : 0 < cross p0 a b := (List.chain'_cons.mp hchain).1
      have hrest := (List.chain'_cons.mp hchain).2
      show 0 < cross p0 a b + fanSum p0 (b :: t2)
      cases t2 with
      | nil =>
        show 0 < cross p0 a b + 0
        simpa using hab
      | cons c t3 =>
        have hr := ih (by simp) hrest
        exact add_pos hab hr

/-- A fan over at least one edge, all of whose triangles turn right, has
negative total signed area. -/
theorem fanSum_neg (p0 : Pt K) : ∀ (l : List (Pt K)), 2 ≤ l.length →
    List.Chain' (fun x y => cross p0 x y < 0) l → fanSum p0 l < 0 := by
  intro l
  induction l with
  | nil => intro h _; simp at h
  | cons a t ih =>
    intro hlen hchain
    cases t with
    | nil => simp at hlen
    | cons b t2 =>
      have hab : cross p0 a b < 0 := (List.chain'_cons.mp hchain).1
      have hrest := (List.chain'_cons.mp hchain).2
      show cross p0 a b + fanSum p0 (b :: t2) < 0
      cases t2 with
      | nil =>
        show cross p0 a b + 0 < 0
        simpa using hab
      | cons c t3 =>
        have hr := ih (by simp) hrest
        exact add_neg hab hr

/-- In-bounds vertex lookup is list indexing. -/
theorem vtx_eq_get (pts : List (Pt K)) (i : ℕ) (h : i < pts.length) :
    vtx pts i = pts.get ⟨i, h⟩ := by
  unfold vtx
  rw [List.getD_eq_getElem _ _ h]
  rfl

/-- In a strictly convex counter-clockwise ring, consecutive fan
triangles from the first vertex all turn left. -/
theorem chain_fan_of_convexCCW (p0 : Pt K) (rest : List (Pt K))
    (h : ConvexCCW (p0 :: rest)) :
    List.Chain' (fun x y => 0 < cross p0 x y) rest := by
  rw [List.chain'_iff_get]
  intro i hi
  have hget1 : rest.get ⟨i, by omega⟩ = vtx (p0 :: rest) (i + 1) := by
    rw [vtx_eq_get (p0 :: rest) (i + 1) (by simp; omega)]
    rfl
  have hget2 : rest.get ⟨i + 1, by omega⟩ = vtx (p0 :: rest) (i + 2) := by
    rw [vtx_eq_get (p0 :: rest) (i + 2) (by simp; omega)]
    rfl
  rw [hget1, hget2]
  have hp0 : p0 = vtx (p0 :: rest) 0 := rfl
  rw [hp0]
  exact h (i + 2) (by simp; omega) (i + 1) (by omega) 0 (by omega)

/-- In a strictly convex clockwise ring, consecutive fan triangles from
the first vertex all turn right. -/
theorem chain_fan_of_convexCW (p0 : Pt K) (rest : List (Pt K))
    (h : ConvexCW (p0 :: rest)) :
    List.Chain' (fun x y => cross p0 x y < 0) rest := by
  rw [List.chain'_iff_get]
  intro i hi
  have hget1 : rest.get ⟨i, by omega⟩ = vtx (p0 :: rest) (i + 1) := by
    rw [vtx_eq_get (p0 :: rest) (i + 1) (by simp; omega)]
    rfl
  have hget2 : rest.get ⟨i + 1, by omega⟩ = vtx (p0 :: rest) (i + 2) := by
    rw [vtx_eq_get (p0 :: rest) (i + 2) (by simp; omega)]
    rfl
  rw [hget1, hget2]
  have hp0 : p0 = vtx (p0 :: rest) 0 := rfl
  rw [hp0]
  exact h (i + 2) (by simp; omega) (i + 1) (by omega) 0 (by omega)

/-- A strictly convex counter-clockwise ring has positive shoelace
area. -/
theorem signedArea2_pos (pts : List (Pt K)) (h : ConvexCCW pts)
    (h3 : 3 ≤ pts.length) : 0 < signedArea2 pts := by
  cases pts with
  | nil => simp at h3
  | cons p0 rest =>
    rw [signedArea2_eq_fan]
    cases rest with
    | nil => simp at h3
    | cons p1 rest2 =>
      show 0 < cross p0 p0 p1 + fanSum p0 (p1 :: rest2)
      have h0 : cross p0 p0 p1 = 0 := by unfold cross; ring
      rw [h0, zero_add]
      apply fanSum_pos
      · simp at h3 ⊢
        omega
      · exact chain_fan_of_convexCCW p0 (p1 :: rest2) h

/-- A strictly convex clockwise ring has negative shoelace area. -/
theorem signedArea2_neg (pts : List (Pt K)) (h : ConvexCW pts)
    (h3 : 3 ≤ pts.length) : signedArea2 pts < 0 := by
  cases pts with
  | nil => simp at h3
  | cons p0 rest =>
    rw [signedArea2_eq_fan]
    cases rest with
    | nil => simp at h3
    | cons p1 rest2 =>
      show cross p0 p0 p1 + fanSum p0 (p1 :: rest2) < 0
      have h0 : cross p0 p0 p1 = 0 := by unfold cross; ring
      rw [h0, zero_add]
      apply fanSum_neg
      · simp at h3 ⊢
        omega
      · exact chain_fan_of_convexCW p0 (p1 :: rest2) h

/-- Vertex lookup in the reversed ring mirrors the index. -/
theorem vtx_reverse (pts : List (Pt K)) (i : ℕ) (h : i < pts.length) :
    vtx pts.reverse i = vtx pts (pts.length - 1 - i) := by
  rw [vtx_eq_get pts.reverse i (by simpa using h),
    vtx_eq_get pts (pts.length - 1 - i) (by omega)]
  rw [List.get_eq_getElem, List.get_eq_getElem, List.getElem_reverse]

/-- Reversing a strictly convex clockwise ring yields a strictly convex
counter-clockwise ring. -/
theorem convexCCW_reverse (pts : List (Pt K)) (h : ConvexCW pts) :
    ConvexCCW pts.reverse := by
  intro r hr q hq p hp
  rw [List.length_reverse] at hr
  rw [vtx_reverse pts p (by omega), vtx_reverse pts q (by omega), vtx_reverse pts r (by omega)]
  rw [cross_rev]
  refine neg_pos.mpr ?_
  exact h (pts.length - 1 - p) (by omega) (pts.length - 1 - q) (by omega)
    (pts.length - 1 - r) (by omega)

omit [LinearOrderedCommRing K] in
/-- Regrouping a ring flattened to coordinates recovers the ring. -/
theorem toPairs_flat (r : List (Pt K)) :
    toPairs (r.flatMap fun c => [c.1, c.2]) = r := by
  induction r with
  | nil => rfl
  | cons a t ih =>
    show toPairs (a.1 :: a.2 :: t.flatMap fun c => [c.1, c.2]) = a :: t
    show (a.1, a.2) :: toPairs (t.flatMap fun c => [c.1, c.2]) = a :: t
    rw [ih]

omit [LinearOrderedCommRing K] in
/-- The flattened coordinate array of a single-ring polygon. -/
theorem ringFlat2D_single (r : List (Pt K)) :
    ringFlat2D [r] = r.flatMap fun c => [c.1, c.2] := by
  unfold ringFlat2D
  simp

/-- A flat index list of length 3 k regroups into k triples. -/
theorem chunk3_length : ∀ (k : ℕ) (l : List ℕ), l.length = 3 * k →
    (chunk3 l).length = k := by
  intro k
  induction k with
  | zero =>
    intro l hl
    rw [List.length_eq_zero.mp hl]
    rfl
  | succ k0 ih =>
    intro l hl
    match l with
    | [] => simp at hl
    | [a] => simp at hl; omega
    | [a, b] => simp at hl; omega
    | a :: b :: c :: rest =>
      show (chunk3 (a :: b :: c :: rest)).length = k0 + 1
      show ((a, b, c) :: chunk3 rest).length = k0 + 1
      rw [List.length_cons, ih rest (by simp at hl; omega)]

/-- Emitting three values per triple gives a buffer three times as
long. -/
theorem length_flatMap_triple {β γ : Type} (f g h : β → γ) :
    ∀ (l : List β), (l.flatMap fun t => [f t, g t, h t]).length = 3 * l.length := by
  intro l
  induction l with
  | nil => rfl
  | cons a t ih =>
    show ([f a, g a, h a] ++ t.flatMap fun t => [f t, g t, h t]).length = _
    rw [List.length_append, ih]
    simp
    ring

/-- Flattening a vertex list triples its length. -/
theorem flat3_length {α : Type} (vs : List (α × α × α)) :
    (flat3 vs).length = 3 * vs.length :=
  length_flatMap_triple _ _ _ vs

/-- Claim C9: on a simple strictly convex polygon ring of N vertices
(either winding) with no holes, the spec-modelled ear clipper emits
exactly N - 2 index triples, and the builder's flattened vertex buffer
for that polygon holds exactly 9 (N - 2) coordinate values. -/
theorem c9_convex_triangle_count {α : Type} (proj : K → K → α × α × α)
    (pts : List (Pt K)) (hconv : ConvexCCW pts ∨ ConvexCW pts) (h3 : 3 ≤ pts.length) :
    (chunk3 (earcutSpec (ringFlat2D [pts]) (holeIndices [pts]))).length = pts.length - 2 ∧
    (flat3 (featureVerts proj earcutSpec (.polygon [pts]))).length = 9 * (pts.length - 2) := by
  have hholes : holeIndices [pts] = ([] : List ℕ) := rfl
  have hflat : toPairs (ringFlat2D [pts]) = pts := by
    rw [ringFlat2D_single]
    exact toPairs_flat pts
  have htris : (earcutSpec (ringFlat2D [pts]) (holeIndices [pts])).length =
      3 * (pts.length - 2) := by
    rw [hholes]
    unfold earcutSpec
    rw [if_pos (by rfl)]
    rw [hflat]
    rcases hconv with hccw | hcw
    · rw [if_neg (not_lt.mpr (le_of_lt (signedArea2_pos pts hccw h3)))]
      exact earClip_length pts hccw h3
    · rw [if_pos (signedArea2_neg pts hcw h3)]
      rw [List.length_map]
      rw [earClip_length pts.reverse (convexCCW_reverse pts hcw) (by simpa using h3)]
      simp
  refine ⟨chunk3_length _ _ htris, ?_⟩
  have hverts : (featureVerts proj earcutSpec (.polygon [pts])).length =
      3 * (pts.length - 2) := by
    show ((processPolygon proj earcutSpec ([], []) [pts]).2).length = _
    unfold processPolygon
    simp only [List.nil_append]
    rw [length_flatMap_triple]
    rw [chunk3_length _ _ htris]
  rw [flat3_length, hverts]
  ring

/-- Witness for C9 on the counter-clockwise unit square: two triangles,
18 coordinate values. -/
theorem c9_convex_triangle_count_witness :
    (chunk3 (earcutSpec (ringFlat2D [square]) (holeIndices [square]))).length =
      square.length - 2 ∧
    (flat3 (featureVerts projT3 earcutSpec (.polygon [square]))).length =
      9 * (square.length - 2) :=
  c9_convex_triangle_count projT3 square (Or.inl (by decide)) (by decide)

end Earth3D
